import Mathlib

/-!
Verification of the degit repository-acquisition engine.

This file gives a shallow embedding, in Lean, of the pure logic of the
engine's Go sources: source-string parsing, reference resolution, the
reference cache's update step, the redirect policies of the two HTTP
helpers, the tarball extraction loop, the clone orchestration control
flow, and the post-acquisition action executor.  Filesystem and network
effects are modelled by explicit state (lists of performed operations)
and by oracle functions giving the outcome of each external call.
Helper functions mirror the semantics of the Go standard library
functions the sources use (path/filepath Clean, Join, Dir, and the
strings package) on Unix paths.
-/

deriving instance DecidableEq for Except

namespace Degit

/-! ## Go string helpers (strings package, on characters) -/

/-- Character-list prefix test, mirroring strings.HasPrefix. -/
def listIsPfx : List Char → List Char → Bool
  | [], _ => true
  | _ :: _, [] => false
  | a :: as, b :: bs => a == b && listIsPfx as bs

/-- strings.HasPrefix. -/
def goHasPfx (s p : String) : Bool := listIsPfx p.toList s.toList

/-- strings.HasSuffix. -/
def goHasSfx (s suf : String) : Bool := listIsPfx suf.toList.reverse s.toList.reverse

/-- strings.TrimSuffix: removes one trailing occurrence of `suf`, if present. -/
def goTrimSfx (s suf : String) : String :=
  if goHasSfx s suf then String.mk (s.toList.take (s.toList.length - suf.toList.length)) else s

/-- Drop leading slashes from a character list. -/
def trimSlashL : List Char → List Char
  | [] => []
  | c :: rest => if c == '/' then trimSlashL rest else c :: rest

/-- strings.Trim(s, "/"): remove all leading and trailing slashes. -/
def goTrimSlash (s : String) : String :=
  String.mk ((trimSlashL (trimSlashL s.toList.reverse).reverse))

/-- strings.Count(s, c) for a single character separator. -/
def countChar (s : String) (c : Char) : Nat :=
  (s.toList.filter (fun x => x == c)).length

/-- Split a character list at a separator character (strings.Split semantics:
the empty string yields one empty field). -/
def splitChar (sep : Char) : List Char → List (List Char)
  | [] => [[]]
  | c :: rest =>
    let r := splitChar sep rest
    if c == sep then [] :: r
    else
      match r with
      | [] => [[c]]
      | g :: gs => (c :: g) :: gs

/-- strings.Split(s, "/"). -/
def goSplitSlash (s : String) : List String := (splitChar '/' s.toList).map String.mk

/-- Join a list of strings with "/" separators (no cleaning). -/
def joinWithSlash : List String → String
  | [] => ""
  | [a] => a
  | a :: rest => a ++ "/" ++ joinWithSlash rest

/-! ## Go path/filepath helpers (Unix rules) -/

/-- One step of the Clean component stack: drop "." and empty components
beforehand; ".." pops a normal component, is dropped at the root, and is
kept when nothing can be popped in a relative path. -/
def cleanStep (rooted : Bool) (stack : List String) (c : String) : List String :=
  if c == ".." then
    match stack with
    | top :: rest => if top == ".." then c :: top :: rest else rest
    | [] => if rooted then [] else [".."]
  else c :: stack

/-- filepath.Clean on Unix paths. -/
def goClean (path : String) : String :=
  if path == "" then "."
  else
    let rooted := goHasPfx path "/"
    let comps := (goSplitSlash path).filter (fun c => !(c == "") && !(c == "."))
    let out := (comps.foldl (cleanStep rooted) []).reverse
    if rooted then "/" ++ joinWithSlash out
    else if out.isEmpty then "." else joinWithSlash out

/-- filepath.Join of two elements: empty elements are skipped, the result
is cleaned; Join of two empty strings is the empty string. -/
def goJoin (a b : String) : String :=
  if a == "" then (if b == "" then "" else goClean b)
  else if b == "" then goClean a
  else goClean (a ++ "/" ++ b)

/-- filepath.Join of a list of elements (variadic Join): leading empty
elements are skipped, the rest is joined with "/" and cleaned. -/
def goJoinList (l : List String) : String :=
  match l.dropWhile (fun s => s == "") with
  | [] => ""
  | l2 => goClean (joinWithSlash l2)

/-- filepath.Dir: everything up to and including the final slash, cleaned. -/
def goDir (p : String) : String :=
  let cs := p.toList
  let tailLen := (cs.reverse.takeWhile (fun c => !(c == '/'))).length
  goClean (String.mk (cs.take (cs.length - tailLen)))

/-- filepath.IsAbs on Unix. -/
def goIsAbs (p : String) : Bool := goHasPfx p "/"

/-! ## RefResolver (ResolveRef and isHex from the refs source file) -/

/-- A git reference: kind ("HEAD", "branch", "tag", or other), name, commit hash. -/
structure Ref where
  type : String
  name : String
  hash : String
deriving DecidableEq, Repr

/-- Resolution failure: the no-HEAD error or the unresolved-reference error. -/
inductive ResolveErr where
  | noHead
  | unresolved (name : String)
deriving DecidableEq, Repr

/-- isHex: true when every character is a hexadecimal digit. -/
def isHex (s : String) : Bool :=
  s.toList.all (fun c =>
    (decide ('0' ≤ c) && decide (c ≤ '9')) ||
    (decide ('a' ≤ c) && decide (c ≤ 'f')) ||
    (decide ('A' ≤ c) && decide (c ≤ 'F')))

/-- ResolveRef: symbolic head, then exact branch, then exact tag, then
length ≥ 8 hash-prefix search, then 40-hex verbatim acceptance. -/
def resolveRef (refs : List Ref) (refName : String) : Except ResolveErr String :=
  if refName = "" ∨ refName = "HEAD" then
    match refs.find? (fun r => r.type == "HEAD") with
    | some r => .ok r.hash
    | none => .error .noHead
  else
    match refs.find? (fun r => r.type == "branch" && r.name == refName) with
    | some r => .ok r.hash
    | none =>
      match refs.find? (fun r => r.type == "tag" && r.name == refName) with
      | some r => .ok r.hash
      | none =>
        match (if 8 ≤ refName.length then refs.find? (fun r => goHasPfx r.hash refName) else none) with
        | some r => .ok r.hash
        | none =>
          if refName.length = 40 && isHex refName then .ok refName
          else .error (.unresolved refName)

/-! ## ReferenceCache (UpdateCache from the cache source file) -/

/-- Go map read with the string zero value for a missing key. -/
def mapGet (m : List (String × String)) (k : String) : String :=
  match m.find? (fun p => p.1 == k) with
  | some p => p.2
  | none => ""

/-- Go map write: replace the binding for `k`, or append one. -/
def mapSet (m : List (String × String)) (k v : String) : List (String × String) :=
  if m.any (fun p => p.1 == k) then m.map (fun p => if p.1 == k then (k, v) else p)
  else m ++ [(k, v)]

/-- The per-repository cache directory state: the ref→hash map (map.json),
the ref→timestamp access log (access.json), and the set of commit hashes
whose `<hash>.tar.gz` archive file exists, as a list. -/
structure CacheState where
  refMap : List (String × String)
  accessLog : List (String × String)
  archives : List String
deriving DecidableEq, Repr

/-- UpdateCache: refresh the access timestamp; stop if the ref already maps
to the hash; otherwise scan the (not yet updated) ref map for any ref still
using the old hash, delete the old archive when none is found, and write the
new mapping.  `now` stands for the formatted current time. -/
def updateCache (st : CacheState) (ref hash now : String) : CacheState :=
  let st1 := { st with accessLog := mapSet st.accessLog ref now }
  if mapGet st1.refMap ref == hash then st1
  else
    let oldHash := mapGet st1.refMap ref
    let st2 :=
      if oldHash == "" then st1
      else
        let hashInUse := st1.refMap.any (fun p => p.2 == oldHash)
        if hashInUse then st1
        else { st1 with archives := st1.archives.filter (fun h => !(h == oldHash)) }
    { st2 with refMap := mapSet st2.refMap ref hash }

/-! ## Download redirect policies (the two CheckRedirect handlers) -/

/-- isGitHubDomain from the download source file. -/
def isGitHubDomain (host : String) : Bool :=
  host == "api.github.com" ||
  host == "github.com" ||
  host == "codeload.github.com" ||
  host == "objects.githubusercontent.com"

/-- Outcome of a CheckRedirect handler for one redirect hop: refuse with the
too-many-redirects error, or proceed, recording whether the Authorization
header is present on the redirected request. -/
inductive RedirectDecision where
  | tooMany
  | proceed (authAttached : Bool)
deriving DecidableEq, Repr

/-- The CheckRedirect handler inside downloadGitHubTarball: error after 10
prior hops; re-attach the Authorization header only when the redirect
target's host is a GitHub domain and the original request carried one. -/
def downloadTarballRedirect (host : String) (viaCount : Nat) (hadAuth : Bool) :
    RedirectDecision :=
  if 10 ≤ viaCount then .tooMany
  else .proceed (isGitHubDomain host && hadAuth)

/-- The CheckRedirect handler inside GitHubRequestWithHeaders: copies every
header of the original request, the Authorization header included, onto the
redirected request, for any target host and any number of hops. -/
def gitHubRequestRedirect (host : String) (viaCount : Nat) (hadAuth : Bool) :
    RedirectDecision :=
  .proceed hadAuth

/-! ## CloneOrchestrator acquisition phase (Clone and cloneWithTar) -/

/-- The Options struct configuring Degit behavior. -/
structure Options where
  force : Bool := false
  cache : Bool := false
  mode : String := "tar"
  verbose : Bool := false
  token : String := ""
deriving DecidableEq, Repr

/-- Oracles for the external calls made by cloneWithTar: the cached hash for
the requested ref ("" when absent), the outcome of fetching remote refs, the
presence of a cached tarball per hash, the download outcome per hash, the
extraction outcome, and the cache-update outcome (logged only). -/
structure TarEnv where
  cachedHash : String
  fetchedRefs : Except String (List Ref)
  cachedTarball : String → Bool
  downloadOk : String → Bool
  extractOk : Bool
  updateCacheOk : Bool

/-- The failure cases of cloneWithTar, one per return-error site. -/
inductive TarErr where
  | offlineRefMiss (ref : String)
  | fetchNoCache (msg : String)
  | resolveFailed (ref : String) (e : ResolveErr)
  | offlineTarMiss (hashPfx : String)
  | downloadFailed (hash : String)
  | extractFailed
deriving DecidableEq, Repr

/-- cloneWithTar: resolve the ref to a hash (cache-only in offline mode,
otherwise fetch refs with a fallback to the cached hash when the fetch
fails), locate or download the tarball, update the cache best-effort, and
extract. -/
def cloneWithTar (opts : Options) (ref : String) (env : TarEnv) : Except TarErr Unit :=
  let hashRes : Except TarErr String :=
    if opts.cache then
      if env.cachedHash == "" then .error (.offlineRefMiss ref) else .ok env.cachedHash
    else
      match env.fetchedRefs with
      | .error msg =>
        if env.cachedHash == "" then .error (.fetchNoCache msg) else .ok env.cachedHash
      | .ok refs =>
        match resolveRef refs ref with
        | .error e => .error (.resolveFailed ref e)
        | .ok h => .ok h
  match hashRes with
  | .error e => .error e
  | .ok hash =>
    let tarRes : Except TarErr Unit :=
      if env.cachedTarball hash then .ok ()
      else if opts.cache then .error (.offlineTarMiss (String.mk (hash.toList.take 8)))
      else if env.downloadOk hash then .ok ()
      else .error (.downloadFailed hash)
    match tarRes with
    | .error e => .error e
    | .ok _ =>
      if env.extractOk then .ok () else .error .extractFailed

/-- Failure of the acquisition phase of Clone. -/
inductive CloneErr where
  | git (msg : String)
  | tarAndGit (t : TarErr) (g : String)
deriving DecidableEq, Repr

/-- The mode-selection and fallback logic of Clone (destination check and
the action phase are modelled separately): in git mode run the git clone;
otherwise run cloneWithTar and, on any tar failure, clear the destination
and attempt the git clone, failing only when both fail.  The Bool of the
result records whether the git fallback ran. -/
def cloneAcquire (opts : Options) (ref : String) (env : TarEnv)
    (gitResult : Except String Unit) : Except CloneErr Unit × Bool :=
  if opts.mode == "git" then
    match gitResult with
    | .ok _ => (.ok (), false)
    | .error g => (.error (.git g), false)
  else
    match cloneWithTar opts ref env with
    | .ok _ => (.ok (), false)
    | .error e =>
      match gitResult with
      | .ok _ => (.ok (), true)
      | .error g => (.error (.tarAndGit e g), true)

/-! ## ArchiveExtractor (ExtractTarball, stripPath, containsSubdir) -/

/-- stripPath: drop the first n slash-separated components; empty when the
path has no more than n components. -/
def stripPath (path : String) (n : Nat) : String :=
  let parts := goSplitSlash path
  if parts.length ≤ n then "" else goJoinList (parts.drop n)

/-- containsSubdir: after dropping the synthetic root component, the path
equals the subdirectory or is nested under it. -/
def containsSubdir (path subdir : String) : Bool :=
  let subdir2 := goTrimSlash subdir
  let parts := goSplitSlash path
  if parts.length < 2 then false
  else
    let pathAfterRoot := joinWithSlash (parts.drop 1)
    goHasPfx pathAfterRoot (subdir2 ++ "/") || pathAfterRoot == subdir2

/-- ExtractOptions: strip-component count and optional subdirectory filter. -/
structure ExtractOptions where
  stripComponents : Nat := 0
  subdir : String := ""
deriving DecidableEq, Repr

/-- The effective strip level: defaults to 1, increased by the subdirectory
depth plus one when a subdirectory filter is requested. -/
def stripLevelOf (opts : ExtractOptions) : Nat :=
  let lvl := if opts.stripComponents = 0 then 1 else opts.stripComponents
  if opts.subdir == "" then lvl
  else lvl + countChar (goTrimSlash opts.subdir) '/' + 1

/-- Tar entry kinds relevant to the extraction switch. -/
inductive TypeFlag where
  | dir
  | reg
  | symlink
  | other
deriving DecidableEq, Repr

/-- A tar entry: name, kind, and symbolic-link target. -/
structure TarEntry where
  name : String
  typeflag : TypeFlag
  linkname : String := ""
deriving DecidableEq, Repr

/-- Filesystem operations performed by the extractor. -/
inductive FsOp where
  | mkdirAll (p : String)
  | writeFile (p : String)
  | symlink (target p : String)
deriving DecidableEq, Repr

/-- The extraction error: path traversal, carrying the offending entry name. -/
inductive ExtractErr where
  | pathTraversal (name : String)
deriving DecidableEq, Repr

/-- The body of the extraction loop for one entry: subdirectory filter,
component stripping, the lexical containment check (fatal on failure), then
the per-kind switch; symbolic links with an absolute target, an escaping
target, or a failing platform symlink call are skipped.  `symlinkOk` is the
oracle for the platform symlink call. -/
def stepEntry (destDir : String) (lvl : Nat) (subdir : String)
    (symlinkOk : String → String → Bool) (fs : List FsOp) (e : TarEntry) :
    Except ExtractErr (List FsOp) :=
  if subdir ≠ "" ∧ containsSubdir e.name (goTrimSlash subdir) = false then .ok fs
  else
    let name := stripPath e.name lvl
    if name = "" then .ok fs
    else
      let destPath := goJoin destDir name
      if (goHasPfx (goClean destPath) (goClean destDir)) = false then
        .error (.pathTraversal e.name)
      else
        match e.typeflag with
        | .dir => .ok (fs ++ [.mkdirAll destPath])
        | .reg => .ok (fs ++ [.writeFile destPath])
        | .symlink =>
          if goIsAbs e.linkname then .ok fs
          else
            let targetPath := goJoin (goDir destPath) e.linkname
            if (goHasPfx (goClean targetPath) (goClean destDir)) = false then .ok fs
            else if symlinkOk e.linkname destPath then .ok (fs ++ [.symlink e.linkname destPath])
            else .ok fs
        | .other => .ok fs

/-- The extraction loop over the archive's entries. -/
def extractEntries (destDir : String) (lvl : Nat) (subdir : String)
    (symlinkOk : String → String → Bool) :
    List TarEntry → List FsOp → Except ExtractErr (List FsOp)
  | [], fs => .ok fs
  | e :: es, fs =>
    match stepEntry destDir lvl subdir symlinkOk fs e with
    | .error err => .error err
    | .ok fs2 => extractEntries destDir lvl subdir symlinkOk es fs2

/-- ExtractTarball on the decoded entry list: create the destination
directory, then run the entry loop. -/
def extractTarball (entries : List TarEntry) (destDir : String)
    (opts : ExtractOptions) (symlinkOk : String → String → Bool) :
    Except ExtractErr (List FsOp) :=
  extractEntries destDir (stripLevelOf opts) opts.subdir symlinkOk entries [.mkdirAll destDir]

/-! ## ActionExecutor (LoadActions, ExecuteActions, executeRemoveAction) -/

/-- A degit.json action after unmarshalling: kind string, source, file list
(already normalised to a list), and flags. -/
structure Action where
  action : String
  src : String := ""
  files : List String := []
  cache : Bool := false
  verbose : Bool := false
deriving DecidableEq, Repr

/-- ExecuteActions failure: the first failing action's index, kind, and
underlying message. -/
inductive ActionsErr where
  | failed (i : Nat) (kind : String) (msg : String)
deriving DecidableEq, Repr

/-- The ExecuteActions loop from index `i`: dispatch on the kind string,
abort on the first clone or remove failure wrapping its index and kind,
warn and continue on an unknown kind.  `execClone` and `execRemove` are the
oracles for the two per-action executors (an error message, or none on
success); the returned list collects the warnings. -/
def executeActionsAux (execClone execRemove : Action → Option String) :
    Nat → List Action → Except ActionsErr (List String)
  | _, [] => .ok []
  | i, a :: rest =>
    if a.action = "clone" then
      match execClone a with
      | some msg => .error (.failed i "clone" msg)
      | none => executeActionsAux execClone execRemove (i + 1) rest
    else if a.action = "remove" then
      match execRemove a with
      | some msg => .error (.failed i "remove" msg)
      | none => executeActionsAux execClone execRemove (i + 1) rest
    else
      match executeActionsAux execClone execRemove (i + 1) rest with
      | .error e => .error e
      | .ok ws => .ok (("Unknown action: " ++ a.action) :: ws)

/-- ExecuteActions, starting at index 0. -/
def executeActions (execClone execRemove : Action → Option String)
    (acts : List Action) : Except ActionsErr (List String) :=
  executeActionsAux execClone execRemove 0 acts

/-- The state of the degit.json manifest at the destination root after a
successful acquisition: absent, or present with its parse outcome (JSON
decoding itself is abstracted as that outcome). -/
inductive ManifestState where
  | absent
  | present (content : Except String (List Action))

/-- LoadActions: an absent manifest yields no actions; a parse failure is
returned as an error with the file left in place; a successful parse
deletes the file and returns its actions.  The Bool records deletion. -/
def loadActions : ManifestState → Except String (List Action) × Bool
  | .absent => (.ok [], false)
  | .present (.error e) => (.error e, false)
  | .present (.ok acts) => (.ok acts, true)

/-- The action-phase failure of Clone. -/
inductive ClonePostErr where
  | actions (e : ActionsErr)
deriving DecidableEq, Repr

/-- Outcome of the action phase: the result, whether the manifest file was
deleted, and whether a load/parse warning was emitted. -/
structure PostOutcome where
  result : Except ClonePostErr Unit
  manifestDeleted : Bool
  warnedLoad : Bool
deriving DecidableEq, Repr

/-- The action phase at the end of Clone: a manifest load failure only
warns and the acquisition still succeeds; a loaded non-empty action list
runs through ExecuteActions whose failure aborts the Clone. -/
def clonePostActions (execClone execRemove : Action → Option String)
    (m : ManifestState) : PostOutcome :=
  match loadActions m with
  | (.error _, del) => ⟨.ok (), del, true⟩
  | (.ok acts, del) =>
    if acts.isEmpty then ⟨.ok (), del, false⟩
    else
      match executeActions execClone execRemove acts with
      | .error e => ⟨.error (.actions e), del, false⟩
      | .ok _ => ⟨.ok (), del, false⟩

/-- hasPrefix from the actions source file: cleaned path equality, or a
proper cleaned-prefix ending at a path separator. -/
def hasPfx (path p : String) : Bool :=
  let pc := (goClean path).toList
  let qc := (goClean p).toList
  pc == qc ||
    (decide (qc.length < pc.length) && (pc.getD qc.length ' ' == '/') &&
      (pc.take qc.length == qc))

/-- Deletions performed by a remove action. -/
inductive RmOp where
  | removeAll (p : String)
  | remove (p : String)
deriving DecidableEq, Repr

/-- Warnings emitted by a remove action. -/
inductive RmWarn where
  | traversal (f : String)
  | missing (f : String)
deriving DecidableEq, Repr

/-- executeRemoveAction: join each listed file onto the destination root,
skip with a warning any path failing the containment check or missing on
disk (`stat` gives existence and directory-ness), and otherwise delete the
directory recursively or remove the file. -/
def executeRemoveAction (destDir : String) (files : List String)
    (stat : String → Option Bool) : List RmOp × List RmWarn :=
  files.foldl
    (fun acc file =>
      let ops := acc.1
      let warns := acc.2
      let filePath := goJoin destDir file
      let cleanPath := goClean filePath
      if hasPfx cleanPath (goClean destDir) = false then (ops, warns ++ [.traversal file])
      else
        match stat filePath with
        | none => (ops, warns ++ [.missing file])
        | some true => (ops ++ [.removeAll filePath], warns)
        | some false => (ops ++ [.remove filePath], warns))
    ([], [])

/-! ## SourceParser (the source regular expression and ParseSource)

The source string is recognised by a Go regular expression; Go's regexp
package uses Perl-style leftmost-first matching (alternation prefers the
earlier branch, repetition is greedy), so the expression is embedded as a
small syntax tree and run by a fuel-bounded backtracking matcher with the
same preference order; capture groups record the final matched text. -/

/-- Regular-expression syntax: empty, literal character, character class
(possibly negated), any character (not newline), concatenation,
alternation, greedy option, greedy star, and a numbered capture group. -/
inductive RE where
  | eps
  | chr (c : Char)
  | cls (neg : Bool) (cs : List Char)
  | anyc
  | cat (a b : RE)
  | alt (a b : RE)
  | opt (a : RE)
  | star (a : RE)
  | grp (n : Nat) (a : RE)

/-- Literal string as a regular expression. -/
def reStr (s : String) : RE := s.toList.foldr (fun c r => RE.cat (RE.chr c) r) RE.eps

/-- Greedy one-or-more. -/
def rePlus (a : RE) : RE := .cat a (.star a)

/-- Character-class membership, with negation. -/
def clsMatch (neg : Bool) (cs : List Char) (c : Char) : Bool :=
  if neg then !(cs.contains c) else cs.contains c

/-- Backtracking matcher in continuation-passing style with Perl
preference order: alternation tries the left branch first, option and star
try consuming first.  `caps` accumulates capture-group contents, most
recent first.  The fuel bounds the recursion depth. -/
def mrun (fuel : Nat) (re : RE) (s : List Char) (caps : List (Nat × List Char))
    (k : List Char → List (Nat × List Char) → Option (List (Nat × List Char))) :
    Option (List (Nat × List Char)) :=
  match fuel with
  | 0 => none
  | fuel + 1 =>
    match re with
    | .eps => k s caps
    | .chr c =>
      match s with
      | [] => none
      | c2 :: rest => if c2 == c then k rest caps else none
    | .cls neg cs =>
      match s with
      | [] => none
      | c2 :: rest => if clsMatch neg cs c2 then k rest caps else none
    | .anyc =>
      match s with
      | [] => none
      | c2 :: rest => if c2 == '\n' then none else k rest caps
    | .cat a b => mrun fuel a s caps (fun s2 caps2 => mrun fuel b s2 caps2 k)
    | .alt a b =>
      match mrun fuel a s caps k with
      | some r => some r
      | none => mrun fuel b s caps k
    | .opt a =>
      match mrun fuel a s caps k with
      | some r => some r
      | none => k s caps
    | .star a =>
      match mrun fuel a s caps (fun s2 caps2 => mrun fuel (.star a) s2 caps2 k) with
      | some r => some r
      | none => k s caps
    | .grp n a =>
      mrun fuel a s caps (fun s2 caps2 => k s2 ((n, s.take (s.length - s2.length)) :: caps2))

/-- Anchored whole-string match returning the capture list. -/
def findSubmatchFull (re : RE) (s : String) : Option (List (Nat × List Char)) :=
  mrun (s.length * 100 + 1000) re s.toList []
    (fun rest caps => if rest.isEmpty then some caps else none)

/-- The final text of a capture group; the empty string for a group that
did not participate in the match. -/
def capGet (caps : List (Nat × List Char)) (n : Nat) : String :=
  match caps.find? (fun p => p.1 == n) with
  | some p => String.mk p.2
  | none => ""

/-- The whitespace class of the regexp package. -/
def wsChars : List Char := ['\t', '\n', '\x0c', '\r', ' ']

/-- The class excluding colon and slash. -/
def reNcs : RE := .cls true [':', '/']

/-- The class excluding slash. -/
def reNs : RE := .cls true ['/']

/-- The class excluding slash and whitespace. -/
def reNsw : RE := .cls true ('/' :: wsChars)

/-- The class excluding slash, whitespace, and hash. -/
def reNswh : RE := .cls true ('/' :: '#' :: wsChars)

/-- The source regular expression: an optional host part (an https or bare
dotted host followed by a slash, a git-at host followed by a colon or
slash, or a site name followed by a colon), the owner, a slash, the repo,
an optional subdirectory of slash-led components, an optional trailing
slash, and an optional hash-led ref. -/
def sourceRegexRE : RE :=
  .cat (.opt (.alt
      (.cat (.opt (reStr "https://"))
        (.cat (.grp 1 (.cat (rePlus reNcs) (.cat (.chr '.') (rePlus reNcs)))) (.chr '/')))
      (.alt
        (.cat (reStr "git@") (.cat (.grp 2 (rePlus reNcs)) (.cls false [':', '/'])))
        (.cat (.grp 3 (rePlus reNs)) (.chr ':')))))
    (.cat (.grp 4 (rePlus reNsw))
    (.cat (.chr '/')
    (.cat (.grp 5 (rePlus reNswh))
    (.cat (.opt (.grp 6 (rePlus (.cat (.chr '/') (rePlus reNswh)))))
    (.cat (.opt (.chr '/'))
      (.opt (.cat (.chr '#') (.grp 7 (rePlus .anyc)))))))))

/-- A parsed repository source. -/
structure Source where
  site : String
  owner : String
  repo : String
  ref : String
  subdir : String
  url : String
  ssh : String
deriving DecidableEq, Repr

/-- The supported hosting sites. -/
def supportedHosts : List String := ["github", "gitlab", "bitbucket", "git.sr.ht"]

/-- getDomain: the full domain for a site. -/
def getDomain (site : String) : String :=
  if site == "github" then "github.com"
  else if site == "gitlab" then "gitlab.com"
  else if site == "bitbucket" then "bitbucket.org"
  else if site == "git.sr.ht" then "git.sr.ht"
  else site ++ ".com"

/-- ParseSource: match the source expression, pick the site from the first
non-empty host group defaulting to github, strip a trailing ".com" or
".org", require a supported site, strip a ".git" suffix from the repo,
default the ref to HEAD, and derive the HTTPS and SSH URLs. -/
def parseSource (src : String) : Except String Source :=
  match findSubmatchFull sourceRegexRE src with
  | none => .error ("could not parse source: " ++ src)
  | some caps =>
    let site0 :=
      if capGet caps 1 ≠ "" then capGet caps 1
      else if capGet caps 2 ≠ "" then capGet caps 2
      else if capGet caps 3 ≠ "" then capGet caps 3
      else "github"
    let site := goTrimSfx (goTrimSfx site0 ".com") ".org"
    if supportedHosts.contains site then
      let owner := capGet caps 4
      let repo := goTrimSfx (capGet caps 5) ".git"
      let subdir := capGet caps 6
      let ref := if capGet caps 7 == "" then "HEAD" else capGet caps 7
      let domain := getDomain site
      let url := "https://" ++ domain ++ "/" ++ owner ++ "/" ++ repo
      let ssh := "git@" ++ domain ++ ":" ++ owner ++ "/" ++ repo
      .ok ⟨site, owner, repo, ref, subdir, url, ssh⟩
    else .error ("unsupported host: " ++ site)

/-! ## Supporting lemmas -/

/-- The archive set is unchanged by every updateCache call: the in-use scan
runs over the ref map before the ref is repointed, so the old hash is always
still found (at the updated ref itself) and the deletion branch is dead. -/
theorem updateCache_archives_unchanged (st : CacheState) (ref hash now : String) :
    (updateCache st ref hash now).archives = st.archives := by
  unfold updateCache
  dsimp only
  split
  · rfl
  · split
    · rfl
    · next hold =>
      split
      · rfl
      · next huse =>
        exfalso
        have hold2 : ¬(mapGet st.refMap ref == "") = true := by
          simpa using hold
        unfold mapGet at hold2
        cases hfind : st.refMap.find? (fun p => p.1 == ref) with
        | none =>
          rw [hfind] at hold2
          exact hold2 (by simp)
        | some p =>
          have hmem : p ∈ st.refMap := List.mem_of_find?_eq_some hfind
          have : st.refMap.any (fun q => q.2 == mapGet st.refMap ref) = true := by
            unfold mapGet
            rw [hfind]
            exact List.any_eq_true.mpr ⟨p, hmem, by simp⟩
          rw [this] at huse
          exact huse rfl

/-! ## Claim theorems -/

/-- C1: the cache map {main ↦ h1} with the archive for h1 on disk, updated
by UpdateCache(dir, main, h2): the mapping is repointed to h2 and no other
ref maps to h1, yet the archive for h1 is still present afterwards — the
in-use scan runs before the map is updated and always finds the updating
ref itself, so the orphaned archive is never deleted, contradicting the
stated invariant. -/
theorem c1_updateCache_retains_orphan_archive :
    (updateCache ⟨[("main", "h1")], [], ["h1"]⟩ "main" "h2" "t1").refMap = [("main", "h2")] ∧
    (updateCache ⟨[("main", "h1")], [], ["h1"]⟩ "main" "h2" "t1").archives = ["h1"] := by
  decide

/-- C2: in offline (cache-only) mode with the ref absent from the cache,
cloneWithTar fails with the offline cache-miss error, but Clone still runs
the git full-clone fallback (the fallback branch has no offline-mode
check): with a succeeding git clone the acquisition reports success and the
fallback-attempted flag is set, where the claim requires the offline error
with no fallback. -/
theorem c2_offline_tar_failure_triggers_git_fallback :
    cloneWithTar ⟨false, true, "tar", false, ""⟩ "main"
      ⟨"", .error "refs unavailable", fun _ => false, fun _ => false, true, true⟩ =
      .error (.offlineRefMiss "main") ∧
    cloneAcquire ⟨false, true, "tar", false, ""⟩ "main"
      ⟨"", .error "refs unavailable", fun _ => false, fun _ => false, true, true⟩ (.ok ()) =
      (.ok (), true) := by
  decide

/-- C3 counterexample: the redirect handler of GitHubRequestWithHeaders
forwards the Authorization header to a redirect target whose host is not in
the trusted GitHub domain set, so the claim quantified over any API request
fails. -/
theorem c3_api_redirect_forwards_auth_to_untrusted_host :
    gitHubRequestRedirect "attacker.example" 0 true = .proceed true ∧
    isGitHubDomain "attacker.example" = false := by
  decide

/-- C3 amended: the tarball download redirect handler attaches the
Authorization header only to trusted GitHub hosts and refuses after 10
hops, while the GitHubRequestWithHeaders handler forwards the header to
every redirect target with no hop cap. -/
theorem c3_redirect_policies (host : String) (viaCount : Nat) (hadAuth : Bool) :
    (downloadTarballRedirect host viaCount hadAuth = .proceed true → isGitHubDomain host = true) ∧
    (10 ≤ viaCount → downloadTarballRedirect host viaCount hadAuth = .tooMany) ∧
    gitHubRequestRedirect host viaCount hadAuth = .proceed hadAuth := by
  refine ⟨?_, ?_, rfl⟩
  · intro h
    unfold downloadTarballRedirect at h
    by_cases hv : 10 ≤ viaCount
    · rw [if_pos hv] at h
      exact absurd h (by simp)
    · rw [if_neg hv] at h
      have : (isGitHubDomain host && hadAuth) = true := by
        injection h
      exact (Bool.and_eq_true _ _).mp this |>.1
  · intro hv
    unfold downloadTarballRedirect
    rw [if_pos hv]

/-- C3 witness: the amended redirect-policy theorem applied at a trusted
host attaching the header, and at the hop cap. -/
theorem c3_redirect_policies_witness :
    isGitHubDomain "api.github.com" = true ∧
    downloadTarballRedirect "codeload.github.com" 10 true = .tooMany :=
  ⟨(c3_redirect_policies "api.github.com" 0 true).1 (by decide),
   (c3_redirect_policies "codeload.github.com" 10 true).2.1 (by decide)⟩

/-- C4 counterexample: ResolveRef on the empty reference list returns a
commit identifier, not an error, when the name is 40 hexadecimal
characters: the verbatim-acceptance step needs no known reference. -/
theorem c4_empty_refs_forty_hex_returned_verbatim :
    resolveRef [] "aaaaaaaaaaaaaaaaaaaaaaaaaaaaaaaaaaaaaaaa" =
      .ok "aaaaaaaaaaaaaaaaaaaaaaaaaaaaaaaaaaaaaaaa" := by
  decide

/-- C4 amended: on the empty reference list, ResolveRef errs for every name
that is not a 40-character hexadecimal string — the no-HEAD error for the
empty or HEAD name, the unresolved error otherwise — and returns a 40-hex
name verbatim. -/
theorem c4_empty_refs_resolution (name : String) :
    (¬(name.length = 40 ∧ isHex name = true) →
      resolveRef [] name =
        .error (if name = "" ∨ name = "HEAD" then .noHead else .unresolved name)) ∧
    (name.length = 40 ∧ isHex name = true → resolveRef [] name = .ok name) := by
  constructor
  · intro h
    by_cases h0 : name = "" ∨ name = "HEAD"
    · simp [resolveRef, h0, List.find?]
    · simp only [resolveRef, h0, if_neg, List.find?, ite_self, if_false]
      rw [if_neg]
      simp only [Bool.and_eq_true, decide_eq_true_eq, not_and, Bool.not_eq_true]
      intro h40
      cases hx : isHex name
      · rfl
      · exact absurd ⟨h40, hx⟩ h
  · rintro ⟨h40, hhex⟩
    have h0 : ¬(name = "" ∨ name = "HEAD") := by
      rintro (rfl | rfl) <;> exact absurd h40 (by decide)
    simp only [resolveRef, h0, if_false, List.find?, ite_self]
    rw [if_pos]
    simp only [Bool.and_eq_true, decide_eq_true_eq]
    exact ⟨h40, hhex⟩

/-- C4 witness: the amended theorem applied at the name main yields the
unresolved error, and at a 40-hex name yields that name. -/
theorem c4_empty_refs_resolution_witness :
    resolveRef [] "main" = .error (.unresolved "main") ∧
    resolveRef [] "ffffffffffffffffffffffffffffffffffffffff" =
      .ok "ffffffffffffffffffffffffffffffffffffffff" := by
  constructor
  · have h := (c4_empty_refs_resolution "main").1 (by decide)
    simpa using h
  · exact (c4_empty_refs_resolution "ffffffffffffffffffffffffffffffffffffffff").2 (by decide)

/-- C5: over the reference list [{HEAD,HEAD,aaaa1111}, {branch,main,aaaa1111},
{tag,v1,bbbb2222}], ResolveRef returns aaaa1111 for the empty name and HEAD,
aaaa1111 for main, bbbb2222 for v1, the unresolved error for the 7-character
bbbb222, and bbbb2222 for bbbb2222 through the hash-prefix step — matching
the order: symbolic head, exact branch, exact tag, length-8 prefix, 40-hex
verbatim. -/
theorem c5_resolution_cascade :
    resolveRef [⟨"HEAD", "HEAD", "aaaa1111"⟩, ⟨"branch", "main", "aaaa1111"⟩,
      ⟨"tag", "v1", "bbbb2222"⟩] "" = .ok "aaaa1111" ∧
    resolveRef [⟨"HEAD", "HEAD", "aaaa1111"⟩, ⟨"branch", "main", "aaaa1111"⟩,
      ⟨"tag", "v1", "bbbb2222"⟩] "HEAD" = .ok "aaaa1111" ∧
    resolveRef [⟨"HEAD", "HEAD", "aaaa1111"⟩, ⟨"branch", "main", "aaaa1111"⟩,
      ⟨"tag", "v1", "bbbb2222"⟩] "main" = .ok "aaaa1111" ∧
    resolveRef [⟨"HEAD", "HEAD", "aaaa1111"⟩, ⟨"branch", "main", "aaaa1111"⟩,
      ⟨"tag", "v1", "bbbb2222"⟩] "v1" = .ok "bbbb2222" ∧
    resolveRef [⟨"HEAD", "HEAD", "aaaa1111"⟩, ⟨"branch", "main", "aaaa1111"⟩,
      ⟨"tag", "v1", "bbbb2222"⟩] "bbbb222" = .error (.unresolved "bbbb222") ∧
    resolveRef [⟨"HEAD", "HEAD", "aaaa1111"⟩, ⟨"branch", "main", "aaaa1111"⟩,
      ⟨"tag", "v1", "bbbb2222"⟩] "bbbb2222" = .ok "bbbb2222" := by
  decide

/-- C8 counterexample: a repo segment ending in a doubled .git suffix has
only the last occurrence stripped, so the parsed repository name still
carries a .git suffix, against the claim that it never does. -/
theorem c8_doubled_git_suffix_retained :
    parseSource "user/repo.git.git" =
      .ok ⟨"github", "user", "repo.git", "HEAD", "",
        "https://github.com/user/repo.git", "git@github.com:user/repo.git"⟩ ∧
    goHasSfx "repo.git" ".git" = true := by
  decide

/-- C8 amended: the three inputs user/repo, github:user/repo, and
https://github.com/user/repo parse to identical descriptors (host github,
default ref HEAD, empty subdirectory, derived HTTPS URL), and one .git
suffix is stripped from the repo segment, so user/repo.git parses the same
as user/repo. -/
theorem c8_parse_normalisation :
    parseSource "user/repo" =
      .ok ⟨"github", "user", "repo", "HEAD", "",
        "https://github.com/user/repo", "git@github.com:user/repo"⟩ ∧
    parseSource "github:user/repo" = parseSource "user/repo" ∧
    parseSource "https://github.com/user/repo" = parseSource "user/repo" ∧
    parseSource "user/repo.git" = parseSource "user/repo" := by
  decide

/-- C10: a remove-action files entry of . or the empty string joins and
cleans to the destination root itself, which the containment check accepts
(it accepts path equality), and the action recursively deletes the whole
destination directory with no warning emitted. -/
theorem c10_remove_dot_deletes_destination :
    hasPfx "/home/user/proj" "/home/user/proj" = true ∧
    executeRemoveAction "/home/user/proj" ["."] (fun _ => some true) =
      ([.removeAll "/home/user/proj"], []) ∧
    executeRemoveAction "/home/user/proj" [""] (fun _ => some true) =
      ([.removeAll "/home/user/proj"], []) := by
  decide

/-- An entry that is not filtered out, has a nonempty stripped name, and
whose cleaned destination path escapes the destination directory makes the
loop body return the path-traversal error. -/
theorem stepEntry_traversal (destDir : String) (lvl : Nat) (subdir : String)
    (symlinkOk : String → String → Bool) (fs : List FsOp) (e : TarEntry)
    (hsub : subdir = "" ∨ containsSubdir e.name (goTrimSlash subdir) = true)
    (hname : stripPath e.name lvl ≠ "")
    (hesc : goHasPfx (goClean (goJoin destDir (stripPath e.name lvl))) (goClean destDir) = false) :
    stepEntry destDir lvl subdir symlinkOk fs e = .error (.pathTraversal e.name) := by
  rcases hsub with h | h
  · simp [stepEntry, h, hname, hesc]
  · simp [stepEntry, h, hname, hesc]

/-- The extraction loop returns a path-traversal error whenever the entry
list contains an entry satisfying the conditions of stepEntry_traversal. -/
theorem extractEntries_mem_traversal (destDir : String) (lvl : Nat) (subdir : String)
    (symlinkOk : String → String → Bool) (e : TarEntry)
    (hsub : subdir = "" ∨ containsSubdir e.name (goTrimSlash subdir) = true)
    (hname : stripPath e.name lvl ≠ "")
    (hesc : goHasPfx (goClean (goJoin destDir (stripPath e.name lvl))) (goClean destDir) = false) :
    ∀ (entries : List TarEntry) (fs : List FsOp), e ∈ entries →
      ∃ n, extractEntries destDir lvl subdir symlinkOk entries fs = .error (.pathTraversal n) := by
  intro entries
  induction entries with
  | nil => intro fs hmem; cases hmem
  | cons a as ih =>
    intro fs hmem
    rcases List.mem_cons.mp hmem with heq | hmem2
    · refine ⟨e.name, ?_⟩
      have hstep := stepEntry_traversal destDir lvl subdir symlinkOk fs e hsub hname hesc
      rw [← heq]
      simp [extractEntries, hstep]
    · cases hs : stepEntry destDir lvl subdir symlinkOk fs a with
      | error err =>
        cases err with
        | pathTraversal n => exact ⟨n, by simp [extractEntries, hs]⟩
      | ok fs2 =>
        have := ih fs2 hmem2
        simpa [extractEntries, hs] using this

/-- C6: every tar entry that reaches the per-entry containment check (it
passes the subdirectory filter and its stripped name is nonempty) and whose
cleaned destination path does not lexically remain within the destination
directory makes ExtractTarball abort by returning the path-traversal error;
the error is the loop's return value, so it always reaches the caller. -/
theorem c6_traversal_aborts_extraction (entries : List TarEntry) (destDir : String)
    (opts : ExtractOptions) (symlinkOk : String → String → Bool) (e : TarEntry)
    (hmem : e ∈ entries)
    (hsub : opts.subdir = "" ∨ containsSubdir e.name (goTrimSlash opts.subdir) = true)
    (hname : stripPath e.name (stripLevelOf opts) ≠ "")
    (hesc : goHasPfx (goClean (goJoin destDir (stripPath e.name (stripLevelOf opts))))
      (goClean destDir) = false) :
    ∃ n, extractTarball entries destDir opts symlinkOk = .error (.pathTraversal n) :=
  extractEntries_mem_traversal destDir (stripLevelOf opts) opts.subdir symlinkOk e
    hsub hname hesc entries [.mkdirAll destDir] hmem

/-- C6 witness: an archive whose single entry strips to a name escaping the
destination is rejected with the path-traversal error. -/
theorem c6_traversal_aborts_extraction_witness :
    ∃ n, extractTarball [⟨"root/../../x", .reg, ""⟩] "/d" ⟨0, ""⟩ (fun _ _ => true) =
      .error (.pathTraversal n) :=
  c6_traversal_aborts_extraction [⟨"root/../../x", .reg, ""⟩] "/d" ⟨0, ""⟩
    (fun _ _ => true) ⟨"root/../../x", .reg, ""⟩ (by simp) (Or.inl rfl) (by decide) (by decide)

/-- A symbolic-link entry with an absolute target, an escaping resolved
target, or a failing platform symlink call — provided it does not itself
fail the containment check — leaves the loop state unchanged. -/
theorem stepEntry_symlink_skip (destDir : String) (lvl : Nat) (subdir : String)
    (symlinkOk : String → String → Bool) (e : TarEntry)
    (hty : e.typeflag = .symlink)
    (hcond : goIsAbs e.linkname = true ∨
      goHasPfx (goClean (goJoin (goDir (goJoin destDir (stripPath e.name lvl))) e.linkname))
        (goClean destDir) = false ∨
      symlinkOk e.linkname (goJoin destDir (stripPath e.name lvl)) = false)
    (hsafe : (subdir ≠ "" ∧ containsSubdir e.name (goTrimSlash subdir) = false) ∨
      stripPath e.name lvl = "" ∨
      goHasPfx (goClean (goJoin destDir (stripPath e.name lvl))) (goClean destDir) = true) :
    ∀ fs, stepEntry destDir lvl subdir symlinkOk fs e = .ok fs := by
  intro fs
  by_cases hf : subdir ≠ "" ∧ containsSubdir e.name (goTrimSlash subdir) = false
  · simp [stepEntry, hf]
  · by_cases hn : stripPath e.name lvl = ""
    · simp [stepEntry, hf, hn]
    · have h3 : goHasPfx (goClean (goJoin destDir (stripPath e.name lvl))) (goClean destDir) = true := by
        rcases hsafe with h | h | h
        · exact absurd h hf
        · exact absurd h hn
        · exact h
      by_cases habs : goIsAbs e.linkname = true
      · simp [stepEntry, hf, hn, h3, hty, habs]
      · have habs2 : goIsAbs e.linkname = false := by
          simpa using habs
        rcases hcond with h | h | h
        · exact absurd h habs
        · simp [stepEntry, hf, hn, h3, hty, habs2, h]
        · by_cases hesc : goHasPfx (goClean (goJoin (goDir (goJoin destDir (stripPath e.name lvl)))
              e.linkname)) (goClean destDir) = false
          · simp [stepEntry, hf, hn, h3, hty, habs2, hesc]
          · have hesc2 : goHasPfx (goClean (goJoin (goDir (goJoin destDir (stripPath e.name lvl)))
                e.linkname)) (goClean destDir) = true := by
              simpa using hesc
            simp [stepEntry, hf, hn, h3, hty, habs2, hesc2, h]

/-- Removing an entry whose loop body always returns the state unchanged
does not change the outcome of the extraction loop. -/
theorem extractEntries_skip_congr (destDir : String) (lvl : Nat) (subdir : String)
    (symlinkOk : String → String → Bool) (e : TarEntry)
    (hstep : ∀ fs, stepEntry destDir lvl subdir symlinkOk fs e = .ok fs) :
    ∀ (pre post : List TarEntry) (fs : List FsOp),
      extractEntries destDir lvl subdir symlinkOk (pre ++ e :: post) fs =
        extractEntries destDir lvl subdir symlinkOk (pre ++ post) fs := by
  intro pre
  induction pre with
  | nil =>
    intro post fs
    simp [extractEntries, hstep fs]
  | cons a as ih =>
    intro post fs
    simp only [List.cons_append, extractEntries]
    cases hs : stepEntry destDir lvl subdir symlinkOk fs a with
    | error err => rfl
    | ok fs2 => exact ih post fs2

/-- C7: a symbolic-link entry whose target is absolute, whose resolved
target lies outside the destination directory, or for which the platform
symlink call fails is silently skipped: extracting any archive containing
it gives exactly the result of extracting the archive without it, so none
of the three conditions ever aborts the extraction.  (The entry is assumed
not to trip the separate path-traversal check on its own destination
path.) -/
theorem c7_symlink_conditions_skipped (destDir : String) (opts : ExtractOptions)
    (symlinkOk : String → String → Bool) (e : TarEntry)
    (hty : e.typeflag = .symlink)
    (hcond : goIsAbs e.linkname = true ∨
      goHasPfx (goClean (goJoin (goDir (goJoin destDir (stripPath e.name (stripLevelOf opts))))
        e.linkname)) (goClean destDir) = false ∨
      symlinkOk e.linkname (goJoin destDir (stripPath e.name (stripLevelOf opts))) = false)
    (hsafe : (opts.subdir ≠ "" ∧ containsSubdir e.name (goTrimSlash opts.subdir) = false) ∨
      stripPath e.name (stripLevelOf opts) = "" ∨
      goHasPfx (goClean (goJoin destDir (stripPath e.name (stripLevelOf opts))))
        (goClean destDir) = true) :
    ∀ (pre post : List TarEntry) (fs : List FsOp),
      extractEntries destDir (stripLevelOf opts) opts.subdir symlinkOk (pre ++ e :: post) fs =
        extractEntries destDir (stripLevelOf opts) opts.subdir symlinkOk (pre ++ post) fs :=
  extractEntries_skip_congr destDir (stripLevelOf opts) opts.subdir symlinkOk e
    (stepEntry_symlink_skip destDir (stripLevelOf opts) opts.subdir symlinkOk e hty hcond hsafe)

/-- C7 witness: an absolute-target symbolic link between two regular
entries is skipped, leaving the same operations as the archive without
it. -/
theorem c7_symlink_conditions_skipped_witness :
    extractEntries "/d" (stripLevelOf ⟨0, ""⟩) "" (fun _ _ => false)
      [⟨"root/a.txt", .reg, ""⟩, ⟨"root/lnk", .symlink, "/abs"⟩, ⟨"root/b.txt", .reg, ""⟩] [] =
      extractEntries "/d" (stripLevelOf ⟨0, ""⟩) "" (fun _ _ => false)
        [⟨"root/a.txt", .reg, ""⟩, ⟨"root/b.txt", .reg, ""⟩] [] :=
  c7_symlink_conditions_skipped "/d" ⟨0, ""⟩ (fun _ _ => false) ⟨"root/lnk", .symlink, "/abs"⟩
    rfl (Or.inl (by decide)) (Or.inr (Or.inr (by decide)))
    [⟨"root/a.txt", .reg, ""⟩] [⟨"root/b.txt", .reg, ""⟩] []

/-- The ExecuteActions loop over an appended list: run the first part, and
on its success continue with the second part at the shifted index,
concatenating the warnings. -/
theorem executeActionsAux_append (execClone execRemove : Action → Option String)
    (pre : List Action) :
    ∀ (i : Nat) (rest : List Action),
      executeActionsAux execClone execRemove i (pre ++ rest) =
        match executeActionsAux execClone execRemove i pre with
        | .error e => .error e
        | .ok ws =>
          match executeActionsAux execClone execRemove (i + pre.length) rest with
          | .error e => .error e
          | .ok ws2 => .ok (ws ++ ws2) := by
  induction pre with
  | nil =>
    intro i rest
    simp only [List.nil_append, executeActionsAux, List.length_nil, Nat.add_zero]
    cases executeActionsAux execClone execRemove i rest with
    | error e => rfl
    | ok ws => simp
  | cons a as ih =>
    intro i rest
    have hlen : i + (a :: as).length = (i + 1) + as.length := by
      simp [List.length_cons]
      omega
    rw [hlen]
    simp only [List.cons_append, executeActionsAux]
    by_cases hc : a.action = "clone"
    · rw [if_pos hc, if_pos hc]
      cases execClone a with
      | some msg => rfl
      | none => exact ih (i + 1) rest
    · rw [if_neg hc, if_neg hc]
      by_cases hr : a.action = "remove"
      · rw [if_pos hr, if_pos hr]
        cases execRemove a with
        | some msg => rfl
        | none => exact ih (i + 1) rest
      · rw [if_neg hr, if_neg hr]
        have ih2 : executeActionsAux execClone execRemove (i + 1) (as.append rest) =
            match executeActionsAux execClone execRemove (i + 1) as with
            | .error e => .error e
            | .ok ws =>
              match executeActionsAux execClone execRemove ((i + 1) + as.length) rest with
              | .error e => .error e
              | .ok ws2 => .ok (ws ++ ws2) := ih (i + 1) rest
        rw [ih2]
        cases h1 : executeActionsAux execClone execRemove (i + 1) as with
        | error e => rfl
        | ok ws =>
          cases h2 : executeActionsAux execClone execRemove ((i + 1) + as.length) rest with
          | error e => rfl
          | ok ws2 => simp

/-- C9: the manifest and action phase of Clone — a manifest that fails to
parse only warns, leaves the file in place, and Clone still succeeds; a
successfully parsed manifest is deleted before its actions run; the actions
run in order and the first failing clone or remove action aborts the Clone
with an error wrapping that action's index and kind; an unknown action kind
is skipped with a warning and the loop continues at the next index. -/
theorem c9_manifest_action_phase (execClone execRemove : Action → Option String) :
    (∀ msg, clonePostActions execClone execRemove (.present (.error msg)) =
      ⟨.ok (), false, true⟩) ∧
    (∀ acts, (clonePostActions execClone execRemove (.present (.ok acts))).manifestDeleted =
      true) ∧
    (∀ (pre : List Action) (a : Action) (post : List Action) (ws : List String) (msg : String),
      executeActionsAux execClone execRemove 0 pre = .ok ws →
      ((a.action = "clone" ∧ execClone a = some msg) ∨
        (a.action = "remove" ∧ execRemove a = some msg)) →
      (clonePostActions execClone execRemove (.present (.ok (pre ++ a :: post)))).result =
        .error (.actions (.failed pre.length a.action msg))) ∧
    (∀ (i : Nat) (a : Action) (rest : List Action),
      a.action ≠ "clone" → a.action ≠ "remove" →
      executeActionsAux execClone execRemove i (a :: rest) =
        match executeActionsAux execClone execRemove (i + 1) rest with
        | .error e => .error e
        | .ok ws => .ok (("Unknown action: " ++ a.action) :: ws)) := by
  refine ⟨fun msg => rfl, ?_, ?_, ?_⟩
  · intro acts
    cases acts with
    | nil => rfl
    | cons a as =>
      simp only [clonePostActions, loadActions, List.isEmpty_cons]
      cases executeActions execClone execRemove (a :: as) with
      | error e => rfl
      | ok ws => rfl
  · intro pre a post ws msg hpre hfail
    have hrun : executeActions execClone execRemove (pre ++ a :: post) =
        .error (.failed pre.length a.action msg) := by
      unfold executeActions
      rw [executeActionsAux_append execClone execRemove pre 0 (a :: post), hpre]
      have hstep : executeActionsAux execClone execRemove (0 + pre.length) (a :: post) =
          .error (.failed pre.length a.action msg) := by
        rcases hfail with ⟨hk, he⟩ | ⟨hk, he⟩
        · simp [executeActionsAux, hk, he, Nat.zero_add]
        · have hk2 : ¬(a.action = "clone") := by
            rw [hk]; decide
          simp [executeActionsAux, hk, hk2, he, Nat.zero_add]
      rw [hstep]
    have hne : (pre ++ a :: post).isEmpty = false := by
      cases pre <;> rfl
    simp only [clonePostActions, loadActions, hne, Bool.false_eq_true, if_false, hrun]
  · intro i a rest hc hr
    simp only [executeActionsAux, if_neg hc, if_neg hr]

/-- C9 witness: the phase theorem applied to a parsed manifest holding an
unknown action followed by a failing clone action: the unknown kind is
skipped and the Clone aborts with the failing action's index 1 and kind. -/
theorem c9_manifest_action_phase_witness :
    (clonePostActions (fun a => if a.src = "bad" then some "boom" else none) (fun _ => none)
      (.present (.ok [⟨"frob", "", [], false, false⟩, ⟨"clone", "bad", [], false, false⟩]))).result =
      .error (.actions (.failed 1 "clone" "boom")) := by
  have h := (c9_manifest_action_phase
    (fun a => if a.src = "bad" then some "boom" else none) (fun _ => none)).2.2.1
  exact h [⟨"frob", "", [], false, false⟩] ⟨"clone", "bad", [], false, false⟩ []
    ["Unknown action: frob"] "boom" (by decide) (Or.inl ⟨rfl, by decide⟩)

end Degit
